import Mathlib

/-!
Verification of the Concordium wasm smart-contract execution host
(`wasm-chain-integration`): a shallow embedding, in Lean, of the energy
meter, the v0 flat contract state, the v0 action list (`Outcome`), the v0
result serialization, the export-name validation, and the v1 instance-state
facade, each translated from the Rust sources, together with theorems about
them.

Conventions used throughout:
* Rust machine integers (`u32`, `u64`) are modelled as `Nat`; where the Rust
  code performs a narrowing cast (`as u32`) the embedding takes the value
  `% 2 ^ 32` explicitly.
* A Rust method taking `&mut self` and returning `Result<A>` is modelled as a
  pure function returning the new state paired with the result, with
  `Except String` standing for `anyhow::Result` (for the energy meter, whose
  error carries no data the caller inspects, a `Bool` flag is used, `true`
  meaning `Ok(())`).
* Byte strings (`Vec<u8>`, `&[u8]`) are modelled as `List Nat`.
-/

namespace ConcordiumWasm

/-- Remaining execution energy: struct `Energy` of `lib.rs` (field `energy: u64`). -/
structure Energy where
  energy : Nat
deriving Repr, DecidableEq

/-- Cost of allocation of one page of memory in relation to execution cost
(`MEMORY_COST_FACTOR` in `lib.rs`). -/
def MEMORY_COST_FACTOR : Nat := 100

/-- Rust `Energy::tick_energy` (`lib.rs`): if `energy >= amount`, subtract and
succeed; otherwise set the remaining energy to `0` and fail with
"Out of energy.". -/
def tick_energy (e : Energy) (amount : Nat) : Energy × Bool :=
  if e.energy ≥ amount then ({ energy := e.energy - amount }, true)
  else ({ energy := 0 }, false)

/-- Rust `Energy::charge_stack` (`lib.rs`); the body is identical to `tick_energy`. -/
def charge_stack (e : Energy) (amount : Nat) : Energy × Bool :=
  if e.energy ≥ amount then ({ energy := e.energy - amount }, true)
  else ({ energy := 0 }, false)

/-- Rust `Energy::charge_memory_alloc` (`lib.rs`): the cost is
`num_pages * MEMORY_COST_FACTOR` (a `u32` widened to `u64` before the
multiplication, so the product cannot overflow and needs no reduction). -/
def charge_memory_alloc (e : Energy) (num_pages : Nat) : Energy × Bool :=
  let to_charge := num_pages * MEMORY_COST_FACTOR
  if e.energy ≥ to_charge then ({ energy := e.energy - to_charge }, true)
  else ({ energy := 0 }, false)

/-- One energy-charging host operation (the three charging entry points of the
`machine::Host` implementations in `lib.rs`). -/
inductive EnergyOp where
  | tick (amount : Nat)
  | stack (amount : Nat)
  | memAlloc (numPages : Nat)
deriving Repr, DecidableEq

/-- The cost charged by an `EnergyOp`. -/
def energyOpCost : EnergyOp → Nat
  | .tick a => a
  | .stack a => a
  | .memAlloc p => p * MEMORY_COST_FACTOR

/-- Dispatch one charging operation to the corresponding `Energy` method. -/
def energyStep (e : Energy) : EnergyOp → Energy × Bool
  | .tick a => tick_energy e a
  | .stack a => charge_stack e a
  | .memAlloc p => charge_memory_alloc e p

/-- The remaining energy after a sequence of charging operations. -/
def runEnergyOps (e : Energy) (ops : List EnergyOp) : Energy :=
  ops.foldl (fun acc op => (energyStep acc op).1) e

/-- A contract address (`contracts_common::ContractAddress`): a `u64` index
and a `u64` subindex. -/
structure ContractAddress where
  index : Nat
  subindex : Nat
deriving Repr, DecidableEq

/-- An account address (`contracts_common::AccountAddress`): 32 bytes. -/
structure AccountAddress where
  bytes : List Nat
deriving Repr, DecidableEq

/-- Rust `Action` (`types.rs`): one node of the v0 action list. `l` and `r` are
`u32` indices of earlier actions. -/
inductive Action where
  | Send (to_addr : ContractAddress) (name : List Nat) (amount : Nat) (parameter : List Nat)
  | SimpleTransfer (to_addr : AccountAddress) (amount : Nat)
  | And (l r : Nat)
  | Or (l r : Nat)
  | Accept
deriving Repr, DecidableEq

/-- Rust `Outcome` (`lib.rs`): the append-only list of actions produced during a
receive invocation. -/
structure Outcome where
  cur_state : List Action
deriving Repr, DecidableEq

/-- Byte-level test for a `u8` being ASCII alphanumeric
(`u8::is_ascii_alphanumeric`): `0-9`, `A-Z`, `a-z`. -/
def isAsciiAlphanumericByte (b : Nat) : Bool :=
  (48 ≤ b && b ≤ 57) || (65 ≤ b && b ≤ 90) || (97 ≤ b && b ≤ 122)

/-- Byte-level test for a `u8` being ASCII punctuation
(`u8::is_ascii_punctuation`): `!..=/`, `:..=@`, `[..=`\x60`, `\x7b..=~`. -/
def isAsciiPunctuationByte (b : Nat) : Bool :=
  (33 ≤ b && b ≤ 47) || (58 ≤ b && b ≤ 64) || (91 ≤ b && b ≤ 96) || (123 ≤ b && b ≤ 126)

/-- Rust `str::from_utf8` followed by `is_valid_receive_name` (`types.rs`), as used
by `Outcome::send`.  Since every character accepted by
`is_valid_receive_name` is ASCII, "the bytes are valid UTF-8, every char is
ASCII alphanumeric or punctuation, and some char is `.`" is equivalent to
this byte-level test: a multi-byte UTF-8 character contains bytes `≥ 0x80`,
which fail the character test, and invalid UTF-8 fails `from_utf8`; either
way `Outcome::send` fails without pushing. -/
def validReceiveNameBytes (bs : List Nat) : Bool :=
  bs.all (fun b => isAsciiAlphanumericByte b || isAsciiPunctuationByte b) && bs.contains 46

/-- Rust `Outcome::accept` (`lib.rs`): push `Accept`, return the index it was
pushed at (as `u32`, hence the `% 2 ^ 32` for the `as u32` cast). -/
def Outcome.accept (o : Outcome) : Outcome × Nat :=
  ({ cur_state := o.cur_state ++ [Action.Accept] }, o.cur_state.length % 2 ^ 32)

/-- Rust `Outcome::simple_transfer` (`lib.rs`): the 32-byte address conversion
(`try_into`) fails unless exactly 32 bytes are given; on success push the
transfer and return its index. -/
def Outcome.simple_transfer (o : Outcome) (bytes : List Nat) (amount : Nat) :
    Except String (Outcome × Nat) :=
  let response := o.cur_state.length
  if bytes.length = 32 then
    .ok ({ cur_state := o.cur_state ++ [Action.SimpleTransfer ⟨bytes⟩ amount] },
      response % 2 ^ 32)
  else .error "could not convert slice to array"

/-- Rust `Outcome::send` (`lib.rs`): validate the receive name, then push the
`Send` action and return its index. -/
def Outcome.send (o : Outcome) (addr_index addr_subindex : Nat)
    (receive_name_bytes : List Nat) (amount : Nat) (parameter_bytes : List Nat) :
    Except String (Outcome × Nat) :=
  let response := o.cur_state.length
  if validReceiveNameBytes receive_name_bytes then
    .ok ({ cur_state := o.cur_state ++
        [Action.Send ⟨addr_index, addr_subindex⟩ receive_name_bytes amount parameter_bytes] },
      response % 2 ^ 32)
  else .error "Not a valid receive name."

/-- Rust `Outcome::combine_and` (`lib.rs`): `response` is the current length as a
`u32`; both arguments must be strictly below it, otherwise the call fails
without pushing. -/
def Outcome.combine_and (o : Outcome) (l r : Nat) : Except String (Outcome × Nat) :=
  let response := o.cur_state.length % 2 ^ 32
  if l < response && r < response then
    .ok ({ cur_state := o.cur_state ++ [Action.And l r] }, response)
  else .error "Combining unknown actions."

/-- Rust `Outcome::combine_or` (`lib.rs`); identical to `combine_and` except for
the node pushed. -/
def Outcome.combine_or (o : Outcome) (l r : Nat) : Except String (Outcome × Nat) :=
  let response := o.cur_state.length % 2 ^ 32
  if l < response && r < response then
    .ok ({ cur_state := o.cur_state ++ [Action.Or l r] }, response)
  else .error "Combining unknown actions."

/-- One action-building host call of a receive invocation. -/
inductive OutcomeOp where
  | accept
  | simpleTransfer (addr : List Nat) (amount : Nat)
  | send (addrIndex addrSubindex : Nat) (name : List Nat) (amount : Nat) (param : List Nat)
  | combineAnd (l r : Nat)
  | combineOr (l r : Nat)
deriving Repr, DecidableEq

/-- Apply one action-building call to the outcome list; a failing call leaves
the list unchanged (the Rust methods bail before pushing). -/
def applyOutcomeOp (o : Outcome) : OutcomeOp → Outcome
  | .accept => (o.accept).1
  | .simpleTransfer addr amount =>
    match o.simple_transfer addr amount with
    | .ok (o', _) => o'
    | .error _ => o
  | .send i s name amount param =>
    match o.send i s name amount param with
    | .ok (o', _) => o'
    | .error _ => o
  | .combineAnd l r =>
    match o.combine_and l r with
    | .ok (o', _) => o'
    | .error _ => o
  | .combineOr l r =>
    match o.combine_or l r with
    | .ok (o', _) => o'
    | .error _ => o

/-- The action list after a sequence of action-building calls starting from
`Outcome::new()` (the empty list). -/
def runOutcomeOps (ops : List OutcomeOp) : Outcome :=
  ops.foldl applyOutcomeOp { cur_state := [] }

/-- Acyclicity of the action list: every `And`/`Or` node stored at index `i`
references only strictly smaller indices. -/
def DagOk (acts : List Action) : Prop :=
  ∀ i l r, (acts[i]? = some (Action.And l r) ∨ acts[i]? = some (Action.Or l r)) →
    l < i ∧ r < i

/-- v0 smart contract state (`State` in `lib.rs`): a flat byte vector. -/
structure State where
  state : List Nat
deriving Repr, DecidableEq

/-- Rust `State::len` (`lib.rs`): the vector length as a `u32`. -/
def State.len (s : State) : Nat := s.state.length % 2 ^ 32

/-- Rust `Vec::resize(n, 0)`: truncate to `n` elements, or extend with zero bytes
up to `n` elements. -/
def listResize (l : List Nat) (n : Nat) : List Nat :=
  l.take n ++ List.replicate (n - l.length) 0

/-- Rust `State::resize_state` (`lib.rs`).  The numeric value of the bound
`MAX_CONTRACT_STATE` is defined in `constants.rs`, which is not among the
sources; the function is therefore parametrized by the bound, and every
theorem below holds for every value of it.  Returns the new state and the
`u32` result (`1` = success, `0` = failure). -/
def State.resize_state (MAX_CONTRACT_STATE : Nat) (s : State) (new_size : Nat) :
    State × Nat :=
  if new_size > MAX_CONTRACT_STATE then (s, 0)
  else ({ state := listResize s.state new_size }, 1)

/-- Rust `std::io::Write::write` on a `&mut [u8]` destination: copy
`min(dst.len, src.len)` bytes of `src` over the front of `dst`, leave the
rest of `dst` unchanged, and report the number copied.  For byte-slice
destinations this never fails. -/
def sliceWrite (dst src : List Nat) : List Nat × Nat :=
  let amt := min dst.length src.length
  (src.take amt ++ dst.drop amt, amt)

/-- Rust `State::load_state` (`lib.rs`): if `offset` is at or past the end return
`Ok(0)` with the destination untouched, otherwise slice-write
`state[offset..]` into the destination.  Returns the written destination and
the `u32` count; `Except` mirrors `ExecResult<u32>`. -/
def State.load_state (s : State) (offset : Nat) (bytes : List Nat) :
    Except String (List Nat × Nat) :=
  if offset ≥ s.state.length then .ok (bytes, 0)
  else
    let res := sliceWrite bytes (s.state.drop offset)
    .ok (res.1, res.2 % 2 ^ 32)

/-- The four big-endian bytes of a `u32` value (`u32::to_be_bytes`); callers
reduce the argument `% 2 ^ 32` where the Rust code casts. -/
def be32 (n : Nat) : List Nat :=
  [n / 2 ^ 24 % 256, n / 2 ^ 16 % 256, n / 2 ^ 8 % 256, n % 256]

/-- The eight big-endian bytes of a `u64` value (`u64::to_be_bytes`). -/
def be64 (n : Nat) : List Nat :=
  [n / 2 ^ 56 % 256, n / 2 ^ 48 % 256, n / 2 ^ 40 % 256, n / 2 ^ 32 % 256,
   n / 2 ^ 24 % 256, n / 2 ^ 16 % 256, n / 2 ^ 8 % 256, n % 256]

/-- Rust `Logs` (`lib.rs`): the ordered list of logged events. -/
structure Logs where
  logs : List (List Nat)
deriving Repr, DecidableEq

/-- Rust `Logs::to_bytes` (`lib.rs`): start from the count (as `u32`,
big-endian), then append, for each event in order, its length (as `u32`,
big-endian) followed by its bytes. -/
def Logs.to_bytes (lg : Logs) : List Nat :=
  lg.logs.foldl (fun out v => out ++ be32 (v.length % 2 ^ 32) ++ v)
    (be32 (lg.logs.length % 2 ^ 32))

/-- v0 `InitResult` (`types.rs`). -/
inductive InitResult where
  | Success (state : State) (logs : Logs) (remaining_energy : Nat)
  | Reject (remaining_energy : Nat)
  | OutOfEnergy
deriving Repr, DecidableEq

/-- Rust `InitResult::to_bytes` (`types.rs`): tag byte, then the
constructor-dependent payload, serialized big-endian. -/
def InitResult.to_bytes : InitResult → List Nat
  | .OutOfEnergy => [0]
  | .Reject remaining_energy => 1 :: be64 (remaining_energy % 2 ^ 64)
  | .Success state logs remaining_energy =>
    2 :: (be32 state.len ++ state.state ++ logs.to_bytes ++ be64 (remaining_energy % 2 ^ 64))

/-- The v0 `Logs` wire format as the specification words it:
`count:u32 || (len:u32 || bytes)*`. -/
def logsSpecBytes (lg : Logs) : List Nat :=
  be32 (lg.logs.length % 2 ^ 32) ++ (lg.logs.map (fun v => be32 (v.length % 2 ^ 32) ++ v)).flatten

/-- The v0 `InitResult` wire format as the specification words it:
`OutOfEnergy → 0x00`; `Reject → 0x01 || remaining:u64`;
`Success → 0x02 || state_len:u32 || state_bytes || logs_bytes || remaining:u64`. -/
def initResultSpecBytes : InitResult → List Nat
  | .OutOfEnergy => [0]
  | .Reject remaining_energy => [1] ++ be64 (remaining_energy % 2 ^ 64)
  | .Success state logs remaining_energy =>
    [2] ++ be32 (state.state.length % 2 ^ 32) ++ state.state ++ logsSpecBytes logs ++
      be64 (remaining_energy % 2 ^ 64)

/-- An interpreter result value (`machine::Value`): a 32- or 64-bit signed
integer. -/
inductive Value where
  | I32 (n : Int)
  | I64 (n : Int)
deriving Repr, DecidableEq

/-- v0 `ReceiveResult` (`types.rs`). -/
inductive ReceiveResult where
  | Success (state : State) (logs : Logs) (actions : List Action) (remaining_energy : Nat)
  | Reject (remaining_energy : Nat)
  | OutOfEnergy
deriving Repr, DecidableEq

/-- The driver tail of `invoke_receive` (`lib.rs`, after `artifact.run`
returns): on an `I32` return `n` with `0 ≤ n < actions.len()` the created
action list is truncated to the first `n + 1` entries and handed back in
`Success`; a non-negative `n` out of range is an error; a negative `n` is a
`Reject`; any other interpreter result is an error. -/
def invoke_receive_finish (res : Option Value) (logs : Logs) (state : State)
    (outcomes : Outcome) (remaining_energy : Nat) : Except String ReceiveResult :=
  match res with
  | some (.I32 n) =>
    if 0 ≤ n ∧ n.toNat < outcomes.cur_state.length then
      .ok (.Success state logs (outcomes.cur_state.take (n.toNat + 1)) remaining_energy)
    else if 0 ≤ n then .error "Invalid return."
    else .ok (.Reject remaining_energy)
  | _ => .error "Invalid return. Expected a value, but received nothing."

/-- The indices of the actions reachable from root `i`, with explicit fuel:
`And`/`Or` nodes reach their two children, every other action only itself.
Fuel `i + 1` suffices for every list satisfying `DagOk`, since children then
have strictly smaller indices. -/
def reachableFromAux (acts : List Action) : Nat → Nat → List Nat
  | 0, i => [i]
  | fuel + 1, i =>
    match acts.get? i with
    | some (Action.And l r) =>
      i :: (reachableFromAux acts fuel l ++ reachableFromAux acts fuel r)
    | some (Action.Or l r) =>
      i :: (reachableFromAux acts fuel l ++ reachableFromAux acts fuel r)
    | _ => [i]

/-- The subtree of action indices reachable from root `i` (spec §3, Actions:
"The guest's i32 return value names the root; only the subtree reachable from
the root is honored"). -/
def reachableFrom (acts : List Action) (i : Nat) : List Nat :=
  reachableFromAux acts (i + 1) i

/-- wasm value types (`wasm_transform::types::ValueType`), restricted to the
two the validation rules mention. -/
inductive ValueType where
  | I32
  | I64
deriving Repr, DecidableEq

/-- A wasm function type (`wasm_transform::types::FunctionType`):
parameter list and optional result. -/
structure FunctionType where
  parameters : List ValueType
  result : Option ValueType
deriving Repr, DecidableEq

/-- Rust `MAX_EXPORT_NAME_LEN` (identical in `types.rs` and `v1/types.rs`). -/
def MAX_EXPORT_NAME_LEN : Nat := 100

/-- Rust `char::is_ascii_alphanumeric`: `0-9`, `A-Z`, `a-z`. -/
def charIsAsciiAlphanumeric (c : Char) : Bool :=
  (48 ≤ c.toNat && c.toNat ≤ 57) || (65 ≤ c.toNat && c.toNat ≤ 90) ||
    (97 ≤ c.toNat && c.toNat ≤ 122)

/-- Rust `char::is_ascii_punctuation`: `!..=/`, `:..=@`, `[..=`\x60, `\x7b..=~`. -/
def charIsAsciiPunctuation (c : Char) : Bool :=
  (33 ≤ c.toNat && c.toNat ≤ 47) || (58 ≤ c.toNat && c.toNat ≤ 64) ||
    (91 ≤ c.toNat && c.toNat ≤ 96) || (123 ≤ c.toNat && c.toNat ≤ 126)

/-- The name test shared by both export validators: at most
`MAX_EXPORT_NAME_LEN` bytes, every character ASCII alphanumeric or
punctuation. -/
def validExportName (item_name : String) : Bool :=
  item_name.utf8ByteSize ≤ MAX_EXPORT_NAME_LEN &&
    item_name.toList.all (fun c => charIsAsciiAlphanumeric c || charIsAsciiPunctuation c)

/-- Rust `str::starts_with(prefix)`, at character level (the prefix the
validators use is ASCII, for which character- and byte-level prefix tests
agree). -/
def strStartsWith (s p : String) : Bool := p.toList.isPrefixOf s.toList

/-- Rust `ConcordiumAllowedImports::validate_export_function` of the v0 host
(`types.rs`): the name must be valid, the type must be `(i64) → i32`, and the
name must either start with `init_` and contain no `.`, or not start with
`init_` and contain a `.`. -/
def v0_validate_export_function (item_name : String) (ty : FunctionType) : Bool :=
  let valid_name := validExportName item_name
  let correct_type := ty.parameters = [ValueType.I64] && ty.result = some ValueType.I32
  valid_name && correct_type &&
    (if strStartsWith item_name "init_" then !(item_name.toList.contains '.')
     else item_name.toList.contains '.')

/-- Rust `ConcordiumAllowedImports::validate_export_function` of the v1 host
(`v1/types.rs`): the name must be valid; if the name has init or receive
shape the type must be `(i64) → i32`, otherwise any type is accepted. -/
def v1_validate_export_function (item_name : String) (ty : FunctionType) : Bool :=
  let valid_name := validExportName item_name
  if !valid_name then false
  else
    let either_init_or_receive_name :=
      if strStartsWith item_name "init_" then !(item_name.toList.contains '.')
      else item_name.toList.contains '.'
    if either_init_or_receive_name then
      ty.parameters = [ValueType.I64] && ty.result = some ValueType.I32
    else true

/-- Modelled from the spec: the mutable state trie (the `trie` module is not
among the sources).  Per §3 of the spec, "each entry identifier resolves
(within its generation) to a mutable slot"; we model the trie as `values`, a
map from entry ids to the value buffer that `StateTrie::with_entry` and
`StateTrie::get_mut` resolve, together with `keymap`, a map from keys to
entry ids as consulted by `StateTrie::delete`.  Prefix locks and lazy loading
through the backing store affect no claim settled in this file and are not
modelled. -/
structure StateTrie where
  values : Nat → Option (List Nat)
  keymap : List Nat → Option Nat

/-- Modelled from the spec (§4.2): `StateTrie::delete(key)` descends to the
value node and clears the value; `Some` is returned exactly when the key was
present. -/
def trieDelete (t : StateTrie) (key : List Nat) : Option StateTrie :=
  match t.keymap key with
  | some id =>
    some { values := fun i => if i = id then none else t.values i,
           keymap := fun k => if k = key then none else t.keymap k }
  | none => none

/-- Modelled from the spec (§4.2, `iterator_next`: "advance in-order to the
next value-bearing node; return an entry-id and record the full key"): the
pending yields of a trie iterator, each an entry id with its full key. -/
structure TrieIterator where
  yields : List (Nat × List Nat)

/-- Rust `EntryWithKey` (`v1/types.rs`): a trie entry id and the key it was
reached by. -/
structure EntryWithKey where
  id : Nat
  key : List Nat

/-- Rust `InstanceState` (`v1/types.rs`): the per-invocation facade mapping
opaque handles to trie entries and iterators. -/
structure InstanceState where
  current_generation : Nat
  entry_mapping : List (Option EntryWithKey)
  iterators : List TrieIterator
  state_trie : StateTrie

/-- Rust `InstanceStateEntry::split` and `InstanceStateIterator::split`
(`v1/types.rs`): of the 64-bit handle, the low 32 bits are the index and the
next 31 bits the generation (the top bit is masked off).  Returns
`(generation, index)`. -/
def handleSplit (h : Nat) : Nat × Nat :=
  ((h / 2 ^ 32) % 2 ^ 31, h % 2 ^ 32)

/-- Rust `InstanceStateEntryOption::new` (`v1/types.rs`): `None` encodes to
`0`; `Some (gen, idx)` to `gen << 32 | idx | 1 << 63`. -/
def entryOptionNew (opt : Option (Nat × Nat)) : Nat :=
  match opt with
  | none => 0
  | some (gen, idx) => ((gen <<< 32) ||| idx) ||| (1 <<< 63)

/-- Rust `InstanceState::delete_entry` (`v1/types.rs`): validate the
generation, take the mapping slot (leaving `None`), then delete the entry's
key from the trie; returns `1` if the trie deletion removed something. -/
def InstanceState.delete_entry (st : InstanceState) (entry : Nat) :
    Except String (InstanceState × Nat) :=
  let gi := handleSplit entry
  if gi.1 = st.current_generation then
    match st.entry_mapping.get? gi.2 with
    | none => .ok (st, 0)
    | some none => .ok (st, 0)
    | some (some e) =>
      let st1 := { st with entry_mapping := st.entry_mapping.set gi.2 none }
      match trieDelete st1.state_trie e.key with
      | some t => .ok ({ st1 with state_trie := t }, 1)
      | none => .ok (st1, 0)
  else .error "Incorrect entry id generation."

/-- Rust `InstanceState::iterator_next` (`v1/types.rs`): validate the
generation, look up the iterator, advance it, and on a yield append a fresh
entry to the mapping, returning its encoded optional handle. -/
def InstanceState.iterator_next (st : InstanceState) (iter : Nat) :
    Except String (InstanceState × Nat) :=
  let gi := handleSplit iter
  if gi.1 = st.current_generation then
    match st.iterators.get? gi.2 with
    | some it =>
      match it.yields with
      | [] => .ok (st, entryOptionNew none)
      | (id, key) :: rest =>
        let idx := st.entry_mapping.length
        .ok ({ st with
                iterators := st.iterators.set gi.2 ⟨rest⟩,
                entry_mapping := st.entry_mapping ++ [some ⟨id, key⟩] },
             entryOptionNew (some (st.current_generation, idx)))
    | none => .error "Invalid iterator."
  else .error "Incorrect iterator generation."

/-- Rust `InstanceState::entry_read` (`v1/types.rs`): validate the
generation, resolve the mapping slot and the trie value, then copy
`min(len - offset, dest.len)` bytes starting at `offset` into the front of
`dest` (the `checked_sub` fails exactly when `offset > len`).  Returns the
written destination and the `u32` count. -/
def InstanceState.entry_read (st : InstanceState) (entry : Nat) (dest : List Nat)
    (offset : Nat) : Except String (List Nat × Nat) :=
  let gi := handleSplit entry
  if gi.1 = st.current_generation then
    match (st.entry_mapping.get? gi.2).join with
    | some e =>
      match st.state_trie.values e.id with
      | some v =>
        if offset ≤ v.length then
          let num_copied := min (v.length - offset) dest.length
          .ok ((v.drop offset).take num_copied ++ dest.drop num_copied,
            num_copied % 2 ^ 32)
        else .error "Offset is past end."
      | none => .error "Entry does not exist."
    | none => .error "Invalid entry."
  else .error "Incorrect entry id generation."

/-- Rust `InstanceState::entry_write` (`v1/types.rs`): validate the
generation, resolve the value, require `offset ≤ len`, extend the value with
zeros up to `offset + src.len` if needed, then overwrite that range with
`src` (the `checked_add` overflow check cannot fire over `Nat`).  Returns the
new state and the `u32` count written. -/
def InstanceState.entry_write (st : InstanceState) (entry : Nat) (src : List Nat)
    (offset : Nat) : Except String (InstanceState × Nat) :=
  let gi := handleSplit entry
  if gi.1 = st.current_generation then
    match (st.entry_mapping.get? gi.2).join with
    | some e =>
      match st.state_trie.values e.id with
      | some v =>
        if offset ≤ v.length then
          let stop := offset + src.length
          let v1 := if v.length < stop then v ++ List.replicate (stop - v.length) 0 else v
          let v2 := v1.take offset ++ src ++ v1.drop stop
          .ok ({ st with state_trie := { st.state_trie with
                  values := fun i => if i = e.id then some v2 else st.state_trie.values i } },
            src.length % 2 ^ 32)
        else .error "Cannot write past the len."
      | none => .error "Entry does not exist."
    | none => .error "Invalid entry."
  else .error "Incorrect entry id generation."

/-- Rust `InstanceState::entry_size` (`v1/types.rs`): validate the
generation, then report the entry's value length as a `u32`. -/
def InstanceState.entry_size (st : InstanceState) (entry : Nat) : Except String Nat :=
  let gi := handleSplit entry
  if gi.1 = st.current_generation then
    match (st.entry_mapping.get? gi.2).join with
    | some e =>
      match st.state_trie.values e.id with
      | some v => .ok (v.length % 2 ^ 32)
      | none => .error "Entry does not exist."
    | none => .error "Invalid entry."
  else .error "Incorrect entry id generation."

/-- Rust `InstanceState::entry_resize` (`v1/types.rs`): validate the
generation, then resize the entry's value (truncate or zero-extend) and
return `1`. -/
def InstanceState.entry_resize (st : InstanceState) (entry : Nat) (new_size : Nat) :
    Except String (InstanceState × Nat) :=
  let gi := handleSplit entry
  if gi.1 = st.current_generation then
    match (st.entry_mapping.get? gi.2).join with
    | some e =>
      match st.state_trie.values e.id with
      | some v =>
        .ok ({ st with state_trie := { st.state_trie with
                values := fun i => if i = e.id then some (listResize v new_size)
                  else st.state_trie.values i } }, 1)
      | none => .error "Entry does not exist."
    | none => .error "Invalid entry."
  else .error "Incorrect entry id generation."

/-- Rust `InstanceState::entry_key_read` (`v1/types.rs`): validate the
generation, then copy `min(key_len - offset, dest.len)` bytes of the
recorded key starting at `offset` into the front of `dest`; the
`checked_sub` fails exactly when `offset > key_len`. -/
def InstanceState.entry_key_read (st : InstanceState) (entry : Nat) (dest : List Nat)
    (offset : Nat) : Except String (List Nat × Nat) :=
  let gi := handleSplit entry
  if gi.1 = st.current_generation then
    match (st.entry_mapping.get? gi.2).join with
    | some e =>
      if offset ≤ e.key.length then
        let num_copied := min (e.key.length - offset) dest.length
        .ok ((e.key.drop offset).take num_copied ++ dest.drop num_copied,
          num_copied % 2 ^ 32)
      else .error "Offset is past key."
    | none => .error "Invalid entry id."
  else .error "Incorrect entry id generation."

/-- Rust `InstanceState::entry_key_size` (`v1/types.rs`): validate the
generation, then report the recorded key's length as a `u32`. -/
def InstanceState.entry_key_size (st : InstanceState) (entry : Nat) : Except String Nat :=
  let gi := handleSplit entry
  if gi.1 = st.current_generation then
    match (st.entry_mapping.get? gi.2).join with
    | some e => .ok (e.key.length % 2 ^ 32)
    | none => .error "Invalid entry ID."
  else .error "Incorrect entry id generation."

/-- Evaluates to `true` exactly on `Except.error`. -/
def isErr {α : Type} (r : Except String α) : Bool :=
  match r with
  | .error _ => true
  | .ok _ => false

lemma energyStep_fst_le (e : Energy) (op : EnergyOp) :
    ((energyStep e op).1).energy ≤ e.energy := by
  cases op <;>
    simp only [energyStep, tick_energy, charge_stack, charge_memory_alloc] <;>
    split <;> simp

lemma energyStep_zero (e : Energy) (op : EnergyOp) (h : e.energy = 0) :
    ((energyStep e op).1).energy = 0 := by
  have := energyStep_fst_le e op
  omega

/-- C1: every charging routine subtracts exactly its cost when affordable and
otherwise zeroes the remaining energy and fails; `charge_memory_alloc` charges
`num_pages * 100`. -/
theorem energy_charge_exact (e : Energy) (a s p : Nat) :
    (a ≤ e.energy → tick_energy e a = ({ energy := e.energy - a }, true)) ∧
    (e.energy < a → tick_energy e a = ({ energy := 0 }, false)) ∧
    (s ≤ e.energy → charge_stack e s = ({ energy := e.energy - s }, true)) ∧
    (e.energy < s → charge_stack e s = ({ energy := 0 }, false)) ∧
    (p * MEMORY_COST_FACTOR ≤ e.energy →
      charge_memory_alloc e p = ({ energy := e.energy - p * MEMORY_COST_FACTOR }, true)) ∧
    (e.energy < p * MEMORY_COST_FACTOR →
      charge_memory_alloc e p = ({ energy := 0 }, false)) := by
  refine ⟨?_, ?_, ?_, ?_, ?_, ?_⟩ <;> intro h <;>
    simp only [tick_energy, charge_stack, charge_memory_alloc] <;>
    split <;> first | rfl | omega

theorem energy_charge_exact_witness :
    tick_energy ⟨10⟩ 4 = (⟨6⟩, true) ∧ tick_energy ⟨3⟩ 4 = (⟨0⟩, false) ∧
    charge_stack ⟨7⟩ 7 = (⟨0⟩, true) ∧ charge_stack ⟨7⟩ 8 = (⟨0⟩, false) ∧
    charge_memory_alloc ⟨1000⟩ 2 = (⟨800⟩, true) ∧
    charge_memory_alloc ⟨50⟩ 1 = (⟨0⟩, false) :=
  ⟨(energy_charge_exact ⟨10⟩ 4 0 0).1 (by decide),
   (energy_charge_exact ⟨3⟩ 4 0 0).2.1 (by decide),
   (energy_charge_exact ⟨7⟩ 0 7 0).2.2.1 (by decide),
   (energy_charge_exact ⟨7⟩ 0 8 0).2.2.2.1 (by decide),
   (energy_charge_exact ⟨1000⟩ 0 0 2).2.2.2.2.1 (by decide),
   (energy_charge_exact ⟨50⟩ 0 0 1).2.2.2.2.2 (by decide)⟩

/-- C8 counterexample: a trace reaching zero after which a charging call still
succeeds.  Starting from 5 energy, `tick_energy 5` succeeds and leaves exactly
0 remaining (energy has reached zero); the subsequent call `tick_energy 0`
nevertheless returns success, refuting "after the remaining energy has reached
zero every subsequent energy-charging call fails". -/
theorem energy_zero_cost_call_succeeds :
    tick_energy ⟨5⟩ 5 = (⟨0⟩, true) ∧ (tick_energy ⟨0⟩ 0).2 = true := by
  decide

/-- C8 (amended): across every sequence of charging operations the remaining
energy is monotonically non-increasing; once it is zero it remains zero; and
at zero every charging call of positive cost fails. -/
theorem energy_monotone_zero_absorbing (e : Energy) (ops : List EnergyOp) :
    (runEnergyOps e ops).energy ≤ e.energy ∧
    (e.energy = 0 → (runEnergyOps e ops).energy = 0) ∧
    (e.energy = 0 → ∀ op, 0 < energyOpCost op → (energyStep e op).2 = false) := by
  refine ⟨?_, ?_, ?_⟩
  · induction ops generalizing e with
    | nil => simp [runEnergyOps]
    | cons op rest ih =>
      have h1 := energyStep_fst_le e op
      have h2 := ih (energyStep e op).1
      simpa [runEnergyOps] using le_trans (by simpa [runEnergyOps] using h2) h1
  · intro h
    induction ops generalizing e with
    | nil => simpa [runEnergyOps]
    | cons op rest ih =>
      have h1 := energyStep_zero e op h
      simpa [runEnergyOps] using ih (energyStep e op).1 h1
  · intro h op hpos
    cases op <;>
      simp only [energyStep, tick_energy, charge_stack, charge_memory_alloc,
        energyOpCost] at hpos ⊢ <;>
      split <;> first | rfl | omega

theorem energy_monotone_zero_absorbing_witness :
    (runEnergyOps ⟨0⟩ [.tick 3, .memAlloc 1]).energy = 0 :=
  (energy_monotone_zero_absorbing ⟨0⟩ [.tick 3, .memAlloc 1]).2.1 rfl

lemma dagOk_nil : DagOk [] := by
  intro i l r hi
  rcases hi with hi | hi <;> simp at hi

lemma dagOk_append (acts : List Action) (a : Action) (h : DagOk acts)
    (ha : ∀ l r, a = Action.And l r ∨ a = Action.Or l r →
      l < acts.length ∧ r < acts.length) :
    DagOk (acts ++ [a]) := by
  intro i l r hi
  rcases Nat.lt_trichotomy i acts.length with hlt | heq | hgt
  · rw [List.getElem?_append_left hlt] at hi
    exact h i l r hi
  · subst heq
    rw [List.getElem?_concat_length] at hi
    rcases hi with hi | hi
    · exact ha l r (Or.inl (Option.some_inj.mp hi))
    · exact ha l r (Or.inr (Option.some_inj.mp hi))
  · have hnone : (acts ++ [a])[i]? = none := by
      rw [List.getElem?_eq_none_iff]
      simp only [List.length_append, List.length_singleton]
      omega
    rcases hi with hi | hi <;> simp [hnone] at hi

lemma applyOutcomeOp_cases (o : Outcome) (op : OutcomeOp) :
    (applyOutcomeOp o op).cur_state = o.cur_state ∨
    ∃ a, (applyOutcomeOp o op).cur_state = o.cur_state ++ [a] ∧
      ∀ l r, a = Action.And l r ∨ a = Action.Or l r →
        l < o.cur_state.length ∧ r < o.cur_state.length := by
  have hmod : o.cur_state.length % 2 ^ 32 ≤ o.cur_state.length := Nat.mod_le _ _
  cases op with
  | accept =>
    right
    exact ⟨Action.Accept, rfl, by intro l r hr; rcases hr with hr | hr <;> simp at hr⟩
  | simpleTransfer addr amount =>
    by_cases hc : addr.length = 32
    · right
      exact ⟨Action.SimpleTransfer ⟨addr⟩ amount,
        by simp [applyOutcomeOp, Outcome.simple_transfer, hc],
        by intro l r hr; rcases hr with hr | hr <;> simp at hr⟩
    · left
      simp [applyOutcomeOp, Outcome.simple_transfer, hc]
  | send i s name amount param =>
    by_cases hc : validReceiveNameBytes name = true
    · right
      exact ⟨Action.Send ⟨i, s⟩ name amount param,
        by simp [applyOutcomeOp, Outcome.send, hc],
        by intro l r hr; rcases hr with hr | hr <;> simp at hr⟩
    · left
      simp [applyOutcomeOp, Outcome.send, hc]
  | combineAnd l r =>
    by_cases hc : l < o.cur_state.length % 2 ^ 32 ∧ r < o.cur_state.length % 2 ^ 32
    · right
      refine ⟨Action.And l r, ?_, ?_⟩
      · simp only [applyOutcomeOp, Outcome.combine_and]
        rw [if_pos (by simpa using hc)]
      · intro l' r' hr
        rcases hr with hr | hr <;> cases hr
        exact ⟨by omega, by omega⟩
    · left
      simp only [applyOutcomeOp, Outcome.combine_and]
      rw [if_neg (by simpa using hc)]
  | combineOr l r =>
    by_cases hc : l < o.cur_state.length % 2 ^ 32 ∧ r < o.cur_state.length % 2 ^ 32
    · right
      refine ⟨Action.Or l r, ?_, ?_⟩
      · simp only [applyOutcomeOp, Outcome.combine_or]
        rw [if_pos (by simpa using hc)]
      · intro l' r' hr
        rcases hr with hr | hr <;> cases hr
        exact ⟨by omega, by omega⟩
    · left
      simp only [applyOutcomeOp, Outcome.combine_or]
      rw [if_neg (by simpa using hc)]

lemma dagOk_applyOutcomeOp (o : Outcome) (op : OutcomeOp) (h : DagOk o.cur_state) :
    DagOk (applyOutcomeOp o op).cur_state := by
  rcases applyOutcomeOp_cases o op with hc | ⟨a, ha, hbound⟩
  · rw [hc]; exact h
  · rw [ha]; exact dagOk_append _ _ h hbound

lemma dagOk_foldl (start : Outcome) (ops : List OutcomeOp) (h : DagOk start.cur_state) :
    DagOk (ops.foldl applyOutcomeOp start).cur_state := by
  induction ops generalizing start with
  | nil => simpa using h
  | cons op rest ih =>
    simp only [List.foldl_cons]
    exact ih _ (dagOk_applyOutcomeOp _ _ h)

/-- C4: `combine_and` and `combine_or` fail, without appending, whenever an
argument is not strictly below the current number of actions; on success they
append a single node at the next index; consequently, after any sequence of
action-building calls starting from the empty outcome, every `And`/`Or` node
at index `i` references only strictly smaller indices. -/
theorem outcome_combine_dag :
    (∀ (o : Outcome) (l r : Nat), l < 2 ^ 32 → r < 2 ^ 32 →
      o.cur_state.length ≤ l ∨ o.cur_state.length ≤ r →
      isErr (o.combine_and l r) = true ∧ isErr (o.combine_or l r) = true) ∧
    (∀ (o : Outcome) (l r : Nat) (o' : Outcome) (i : Nat),
      o.combine_and l r = .ok (o', i) →
      o'.cur_state = o.cur_state ++ [Action.And l r] ∧
        i = o.cur_state.length % 2 ^ 32) ∧
    (∀ (o : Outcome) (l r : Nat) (o' : Outcome) (i : Nat),
      o.combine_or l r = .ok (o', i) →
      o'.cur_state = o.cur_state ++ [Action.Or l r] ∧
        i = o.cur_state.length % 2 ^ 32) ∧
    (∀ ops : List OutcomeOp, DagOk (runOutcomeOps ops).cur_state) := by
  refine ⟨?_, ?_, ?_, ?_⟩
  · intro o l r _ _ hor
    have hmod : o.cur_state.length % 2 ^ 32 ≤ o.cur_state.length := Nat.mod_le _ _
    have hcond : ¬(l < o.cur_state.length % 2 ^ 32 ∧
        r < o.cur_state.length % 2 ^ 32) := by
      intro hcc
      rcases hor with hh | hh <;> omega
    constructor <;>
    · simp only [Outcome.combine_and, Outcome.combine_or]
      rw [if_neg (by simpa using hcond)]
      rfl
  · intro o l r o' i h
    simp only [Outcome.combine_and] at h
    split at h
    · rw [Except.ok.injEq, Prod.mk.injEq] at h
      exact ⟨by rw [← h.1], h.2.symm⟩
    · exact absurd h (by simp)
  · intro o l r o' i h
    simp only [Outcome.combine_or] at h
    split at h
    · rw [Except.ok.injEq, Prod.mk.injEq] at h
      exact ⟨by rw [← h.1], h.2.symm⟩
    · exact absurd h (by simp)
  · intro ops
    exact dagOk_foldl ⟨[]⟩ ops dagOk_nil

theorem outcome_combine_dag_witness :
    isErr (Outcome.combine_and ⟨[Action.Accept]⟩ 1 0) = true ∧
    DagOk (runOutcomeOps [.accept, .accept, .combineAnd 0 1]).cur_state :=
  ⟨(outcome_combine_dag.1 ⟨[Action.Accept]⟩ 1 0 (by decide) (by decide)
      (Or.inl (by decide))).1,
   outcome_combine_dag.2.2.2 [.accept, .accept, .combineAnd 0 1]⟩

/-- C6: for every v0 contract state and requested size `n`, `resize_state`
with `n` above the bound fails returning `0` and leaves the state byte vector
unchanged; with `n` at most the bound it resizes the state to exactly `n`
bytes (zero-extending) and returns `1`.  The theorem holds for every value of
the bound `MAX_CONTRACT_STATE`. -/
theorem resize_state_spec (MAX_CONTRACT_STATE : Nat) (s : State) (n : Nat) :
    (MAX_CONTRACT_STATE < n → State.resize_state MAX_CONTRACT_STATE s n = (s, 0)) ∧
    (n ≤ MAX_CONTRACT_STATE →
      State.resize_state MAX_CONTRACT_STATE s n =
        ({ state := s.state.take n ++ List.replicate (n - s.state.length) 0 }, 1) ∧
      ((State.resize_state MAX_CONTRACT_STATE s n).1).state.length = n) := by
  constructor
  · intro h
    simp [State.resize_state, h]
  · intro h
    have hng : ¬ (n > MAX_CONTRACT_STATE) := by omega
    constructor
    · simp [State.resize_state, listResize, hng]
    · simp only [State.resize_state, listResize, if_neg hng, List.length_append,
        List.length_take, List.length_replicate]
      omega

theorem resize_state_spec_witness :
    State.resize_state 5 ⟨[1, 2, 3]⟩ 6 = (⟨[1, 2, 3]⟩, 0) ∧
    State.resize_state 5 ⟨[1, 2, 3]⟩ 2 = (⟨[1, 2]⟩, 1) :=
  ⟨(resize_state_spec 5 ⟨[1, 2, 3]⟩ 6).1 (by decide),
   ((resize_state_spec 5 ⟨[1, 2, 3]⟩ 2).2 (by decide)).1⟩

/-- C10: `load_state` never returns an error: with `offset` at or past the
state length it returns `Ok` with count `0` and the destination untouched,
and otherwise it copies `min(state_len - offset, dst.len)` bytes and returns
that count.  The hypothesis bounds the state length as `State`'s length
accessor does (`u32`), which every reachable v0 state satisfies. -/
theorem load_state_total (s : State) (offset : Nat) (dst : List Nat)
    (hs : s.state.length < 2 ^ 32) :
    (s.state.length ≤ offset → s.load_state offset dst = .ok (dst, 0)) ∧
    (offset < s.state.length →
      s.load_state offset dst =
        .ok ((s.state.drop offset).take (min (s.state.length - offset) dst.length) ++
              dst.drop (min (s.state.length - offset) dst.length),
          min (s.state.length - offset) dst.length)) := by
  constructor
  · intro h
    simp [State.load_state, h]
  · intro h
    have hng : ¬ (offset ≥ s.state.length) := by omega
    have hdrop : (s.state.drop offset).length = s.state.length - offset := by
      simp
    have hamt : min dst.length (s.state.drop offset).length =
        min (s.state.length - offset) dst.length := by
      rw [hdrop, Nat.min_comm]
    have hlt : min (s.state.length - offset) dst.length < 2 ^ 32 := by omega
    simp only [State.load_state, sliceWrite]
    rw [if_neg hng, hamt, Nat.mod_eq_of_lt hlt]

theorem load_state_total_witness :
    State.load_state ⟨[1, 2, 3, 4]⟩ 9 [7, 7] = .ok ([7, 7], 0) ∧
    State.load_state ⟨[1, 2, 3, 4]⟩ 1 [7, 7] = .ok ([2, 3], 2) :=
  ⟨(load_state_total ⟨[1, 2, 3, 4]⟩ 9 [7, 7] (by decide)).1 (by decide),
   (load_state_total ⟨[1, 2, 3, 4]⟩ 1 [7, 7] (by decide)).2 (by decide)⟩

lemma logs_foldl_append (ls : List (List Nat)) (init : List Nat) :
    ls.foldl (fun out v => out ++ be32 (v.length % 2 ^ 32) ++ v) init =
      init ++ (ls.map (fun v => be32 (v.length % 2 ^ 32) ++ v)).flatten := by
  induction ls generalizing init with
  | nil => simp
  | cons v rest ih =>
    simp only [List.foldl_cons, List.map_cons, List.flatten_cons]
    rw [ih]
    simp [List.append_assoc]

/-- C9: the v0 `InitResult` serialization is exactly the wire format the
specification describes: `OutOfEnergy → 0x00`; `Reject → 0x01 ||
remaining:u64`; `Success → 0x02 || state_len:u32 || state_bytes || logs_bytes
|| remaining:u64`, with `Logs → count:u32 || (len:u32 || bytes)*`, all
big-endian. -/
theorem init_result_wire_format (r : InitResult) :
    r.to_bytes = initResultSpecBytes r := by
  cases r with
  | OutOfEnergy => rfl
  | Reject e => rfl
  | Success s lg e =>
    simp only [InitResult.to_bytes, initResultSpecBytes, Logs.to_bytes, logsSpecBytes,
      State.len]
    rw [logs_foldl_append]
    simp [List.append_assoc]

/-- C2 (evaluation at the failing input): with created actions
`[Accept, Accept]` and the guest returning root `n = 1`, the driver hands
back `Success` containing both actions `0` and `1` — plain truncation to
`0..=n` — although only index `1` is reachable from root `1`; actions in
`0..=n` that are unreachable from `n` are returned all the same. -/
theorem receive_keeps_unreachable_action :
    invoke_receive_finish (some (.I32 1)) ⟨[]⟩ ⟨[]⟩ ⟨[.Accept, .Accept]⟩ 100 =
      .ok (.Success ⟨[]⟩ ⟨[]⟩ [.Accept, .Accept] 100) ∧
    reachableFrom [.Accept, .Accept] 1 = [1] ∧
    ¬ (0 ∈ reachableFrom [.Accept, .Accept] 1) := by
  refine ⟨rfl, rfl, by decide⟩

/-- C7 counterexample: the export name `"a.b.c"`, which contains two dots, is
accepted by both export validators (with the entrypoint signature
`(i64) → i32`), refuting "receive entrypoints contain exactly one '.'": the
code only requires at least one dot. -/
theorem export_two_dots_accepted :
    v0_validate_export_function "a.b.c" ⟨[ValueType.I64], some ValueType.I32⟩ = true ∧
    v1_validate_export_function "a.b.c" ⟨[ValueType.I64], some ValueType.I32⟩ = true ∧
    "a.b.c".toList.count '.' = 2 := by
  decide

/-- C7 (amended): every export name accepted by export validation is at most
`MAX_EXPORT_NAME_LEN` bytes of ASCII alphanumeric or punctuation characters;
accepted `init_`-prefixed names contain no `.` and accepted v0 names without
the `init_` prefix contain at least one `.` (not necessarily exactly one);
every accepted v0 export has signature `(i64) → i32`, and every accepted v1
export of init or receive shape does. -/
theorem validate_export_accepted_shape (name : String) (ty : FunctionType) :
    (v0_validate_export_function name ty = true →
      (name.utf8ByteSize ≤ MAX_EXPORT_NAME_LEN ∧
        ∀ c ∈ name.toList,
          (charIsAsciiAlphanumeric c || charIsAsciiPunctuation c) = true) ∧
      ty = ⟨[ValueType.I64], some ValueType.I32⟩ ∧
      (strStartsWith name "init_" = true → name.toList.contains '.' = false) ∧
      (strStartsWith name "init_" = false → name.toList.contains '.' = true)) ∧
    (v1_validate_export_function name ty = true →
      (name.utf8ByteSize ≤ MAX_EXPORT_NAME_LEN ∧
        ∀ c ∈ name.toList,
          (charIsAsciiAlphanumeric c || charIsAsciiPunctuation c) = true) ∧
      ((strStartsWith name "init_" = true ∧ name.toList.contains '.' = false) ∨
          (strStartsWith name "init_" = false ∧ name.toList.contains '.' = true) →
        ty = ⟨[ValueType.I64], some ValueType.I32⟩)) := by
  constructor
  · intro h
    simp only [v0_validate_export_function, validExportName, Bool.and_eq_true,
      decide_eq_true_eq, List.all_eq_true, beq_iff_eq] at h
    obtain ⟨⟨⟨hlen, hchars⟩, hp, hr⟩, hdot⟩ := h
    refine ⟨⟨hlen, hchars⟩, ?_, ?_, ?_⟩
    · cases ty
      simp only at hp hr
      rw [hp, hr]
    · intro hs
      rw [if_pos hs] at hdot
      simpa using hdot
    · intro hs
      rw [if_neg (by simp [hs])] at hdot
      exact hdot
  · intro h
    by_cases hv : validExportName name = true
    · have hvn := hv
      simp only [validExportName, Bool.and_eq_true, decide_eq_true_eq,
        List.all_eq_true] at hvn
      refine ⟨⟨hvn.1, hvn.2⟩, ?_⟩
      intro hshape
      simp only [v1_validate_export_function, hv, Bool.not_true, Bool.false_eq_true,
        if_false] at h
      have hcond : (if strStartsWith name "init_" = true then !(name.toList.contains '.')
          else name.toList.contains '.') = true := by
        rcases hshape with ⟨hs1, hs2⟩ | ⟨hs1, hs2⟩
        · rw [if_pos hs1, hs2]
          rfl
        · rw [if_neg (by simp [hs1])]
          exact hs2
      rw [if_pos hcond] at h
      simp only [Bool.and_eq_true, decide_eq_true_eq] at h
      cases ty
      simp only at h
      rw [h.1, h.2]
    · exfalso
      simp only [v1_validate_export_function] at h
      rw [if_pos (by simp [hv])] at h
      exact Bool.false_ne_true h

theorem validate_export_accepted_shape_witness :
    ("init_a".toList.contains '.') = false :=
  ((validate_export_accepted_shape "init_a"
      ⟨[ValueType.I64], some ValueType.I32⟩).1 (by decide)).2.2.1 (by decide)

/-- C3: for every entry handle of the current generation whose mapping slot
resolves to an entry whose trie value is `v`, `entry_read` succeeds exactly
when `offset ≤ v.length` (in particular `offset = v.length` succeeds, copying
zero bytes), copying `min(len - offset, dst.len)` bytes of the value starting
at `offset` into the front of `dst` and returning that count; it fails if and
only if `offset > v.length`.  The destination-length bound reflects the wasm
linear-memory slice that every real destination buffer is. -/
theorem entry_read_spec (st : InstanceState) (h idx : Nat) (e : EntryWithKey)
    (v dest : List Nat) (offset : Nat)
    (hsplit : handleSplit h = (st.current_generation, idx))
    (hmap : (st.entry_mapping.get? idx).join = some e)
    (hval : st.state_trie.values e.id = some v)
    (hdest : dest.length < 2 ^ 32) :
    (offset ≤ v.length →
      st.entry_read h dest offset =
        .ok ((v.drop offset).take (min (v.length - offset) dest.length) ++
              dest.drop (min (v.length - offset) dest.length),
          min (v.length - offset) dest.length)) ∧
    (v.length < offset → isErr (st.entry_read h dest offset) = true) ∧
    (isErr (st.entry_read h dest offset) = true ↔ v.length < offset) := by
  have hok : offset ≤ v.length →
      st.entry_read h dest offset =
        .ok ((v.drop offset).take (min (v.length - offset) dest.length) ++
              dest.drop (min (v.length - offset) dest.length),
          min (v.length - offset) dest.length) := by
    intro hoff
    have hlt : min (v.length - offset) dest.length < 2 ^ 32 :=
      lt_of_le_of_lt (min_le_right _ _) hdest
    have hmap' : (st.entry_mapping[idx]?.bind fun a => a) = some e := by
      simpa using hmap
    simp [InstanceState.entry_read, hsplit, hmap', hval, hoff, Nat.mod_eq_of_lt hlt]
    omega
  have hmap' : (st.entry_mapping[idx]?.bind fun a => a) = some e := by
    simpa using hmap
  refine ⟨hok, ?_, ?_⟩
  · intro hoff
    have hno : ¬ (offset ≤ v.length) := by omega
    simp [InstanceState.entry_read, isErr, hsplit, hmap', hval, hno]
  · constructor
    · intro herr
      by_contra hc
      push_neg at hc
      rw [hok hc] at herr
      simp [isErr] at herr
    · intro hoff
      have hno : ¬ (offset ≤ v.length) := by omega
      simp [InstanceState.entry_read, isErr, hsplit, hmap', hval, hno]

theorem entry_read_spec_witness :
    InstanceState.entry_read
      { current_generation := 0,
        entry_mapping := [some { id := 5, key := [7] }],
        iterators := [],
        state_trie := { values := fun i => if i = 5 then some [10, 20, 30] else none,
                        keymap := fun _ => none } } 0 [0, 0] 1 =
      .ok ([20, 30], 2) :=
  (entry_read_spec
    { current_generation := 0,
      entry_mapping := [some { id := 5, key := [7] }],
      iterators := [],
      state_trie := { values := fun i => if i = 5 then some [10, 20, 30] else none,
                      keymap := fun _ => none } }
    0 0 { id := 5, key := [7] } [10, 20, 30] [0, 0] 1
    rfl rfl rfl (by decide)).1 (by decide)

/-- C5: every public `InstanceState` method taking an entry or iterator
handle (`delete_entry`, `iterator_next`, `entry_read`, `entry_write`,
`entry_size`, `entry_resize`, `entry_key_read`, `entry_key_size`) returns an
error whenever the generation encoded in the handle differs from the facade's
current generation, for every handle value and every other argument. -/
theorem generation_mismatch_rejected (st : InstanceState) (h : Nat)
    (dest src : List Nat) (offset new_size : Nat)
    (hgen : (handleSplit h).1 ≠ st.current_generation) :
    isErr (st.delete_entry h) = true ∧
    isErr (st.iterator_next h) = true ∧
    isErr (st.entry_read h dest offset) = true ∧
    isErr (st.entry_write h src offset) = true ∧
    isErr (st.entry_size h) = true ∧
    isErr (st.entry_resize h new_size) = true ∧
    isErr (st.entry_key_read h dest offset) = true ∧
    isErr (st.entry_key_size h) = true := by
  refine ⟨?_, ?_, ?_, ?_, ?_, ?_, ?_, ?_⟩ <;>
    simp [InstanceState.delete_entry, InstanceState.iterator_next,
      InstanceState.entry_read, InstanceState.entry_write, InstanceState.entry_size,
      InstanceState.entry_resize, InstanceState.entry_key_read,
      InstanceState.entry_key_size, isErr, hgen]

theorem generation_mismatch_rejected_witness :
    isErr (InstanceState.delete_entry
      { current_generation := 1, entry_mapping := [], iterators := [],
        state_trie := { values := fun _ => none, keymap := fun _ => none } } 0) = true :=
  (generation_mismatch_rejected
    { current_generation := 1, entry_mapping := [], iterators := [],
      state_trie := { values := fun _ => none, keymap := fun _ => none } }
    0 [] [] 0 0 (by decide)).1

end ConcordiumWasm
